import Mathlib

/-!
Verification development for the image-similarity tool
(src/image_similarity.py).

The program computes a perceptual fingerprint per image, scans a
directory for images whose fingerprint is within a Hamming-distance
threshold of a reference image, and interactively deletes a selection
of the matches.

Shallow embedding choices:
 * An image fingerprint (imagehash.ImageHash) is a bit vector,
   List Bool; the library subtraction of two hashes is their Hamming
   distance (count of differing bit positions).
 * The filesystem is passed explicitly: fingerprint extraction is an
   oracle String -> Option Fingerprint (none models an IOError when
   opening or decoding the file at that path), directory enumeration
   is the List String that os.listdir returns, and the disk contents
   for deletion are a predicate String -> Bool (true = path exists).
 * sys.exit 1 inside calculate_image_hash is modelled by the Except
   monad: Except.error 1 aborts the whole computation, so no partial
   result can escape, exactly like the SystemExit that propagates out
   of find_similar_images.
 * Python string primitives (str.split with a one-character separator,
   the in operator on characters, int on an optionally minus-signed
   decimal string, os.path.basename, os.path.join) are modelled by
   structural recursion on the character list of the string.
-/

/-- Models Python str.split with a one-character separator: splits at
every occurrence of the separator, keeping empty pieces, so the result
always has (number of occurrences + 1) pieces. -/
def splitChar (c : Char) : List Char → List (List Char)
  | [] => [[]]
  | x :: xs =>
    match splitChar c xs with
    | [] => [[]]
    | y :: ys => if x = c then [] :: y :: ys else (x :: y) :: ys

/-- Python str.split lifted to String. -/
def strSplit (c : Char) (s : String) : List String :=
  (splitChar c s.data).map String.mk

/-- Models the Python membership test (c in s) for a character. -/
def strContains (s : String) (c : Char) : Bool :=
  s.data.contains c

/-- Models os.path.basename: the part of the path after the last
slash. -/
def basename (p : String) : String :=
  String.mk ((splitChar '/' p.data).getLastD [])

/-- Models os.path.join for two components: an absolute second
component replaces the first, an empty first component is dropped, and
otherwise a slash is inserted unless the first component already ends
with one. -/
def pathJoin (d f : String) : String :=
  if f.data.headD ' ' = '/' then f
  else if d = "" then f
  else if d.data.getLastD ' ' = '/' then d ++ f
  else d ++ "/" ++ f

/-- Value of a decimal digit character, none for a non-digit. -/
def digitVal (c : Char) : Option Nat :=
  if '0' ≤ c ∧ c ≤ '9' then some (c.toNat - '0'.toNat) else none

/-- Decimal value of a non-empty list of digit characters, none if any
character is not a digit. -/
def parseNatChars (l : List Char) : Option Nat :=
  match l with
  | [] => none
  | _ =>
    l.foldl
      (fun acc c =>
        match acc, digitVal c with
        | some a, some d => some (a * 10 + d)
        | _, _ => none)
      (some 0)

/-- Models Python int applied to an optionally minus-signed decimal
string; none models the ValueError raised on any other input. -/
def parseIntChars : List Char → Option Int
  | '-' :: rest => (parseNatChars rest).map (fun n => -(n : Int))
  | l => (parseNatChars l).map Int.ofNat

/-- Python int lifted to String. -/
def strToInt (s : String) : Option Int := parseIntChars s.data

/-- An image fingerprint: the fixed-length bit vector produced by
imagehash.average_hash. -/
abbrev Fingerprint := List Bool

/-- Subtraction of two imagehash.ImageHash values: the Hamming
distance, i.e. the number of bit positions where the two fingerprints
differ. -/
def hammingDistance (a b : Fingerprint) : Nat :=
  (a.zip b).countP (fun p => p.1 != p.2)

/-- Embeds calculate_image_hash (src/image_similarity.py lines 12-27):
opening and hashing the image at image_path, where a failure to open
or decode prints an error and calls sys.exit 1.  The filesystem oracle
fs returns the fingerprint, or none when opening fails; Except.error 1
models the process exiting with status 1. -/
def calculate_image_hash (fs : String → Option Fingerprint)
    (image_path : String) : Except Nat Fingerprint :=
  match fs image_path with
  | some h => Except.ok h
  | none => Except.error 1

/-- Embeds the loop of find_similar_images (src/image_similarity.py
lines 45-53): walk the directory listing, skip the entry equal to the
basename of the reference path, hash every other entry (a hashing
failure exits the process, aborting the whole scan), and collect the
names whose distance to the reference hash is strictly below the
threshold. -/
def scanDir (fs : String → Option Fingerprint)
    (user_image_path directory_path : String)
    (user_image_hash : Fingerprint) (threshold : Int) :
    List String → Except Nat (List String)
  | [] => Except.ok []
  | image_filename :: rest =>
    if image_filename = basename user_image_path then
      scanDir fs user_image_path directory_path user_image_hash threshold rest
    else
      match calculate_image_hash fs (pathJoin directory_path image_filename) with
      | Except.error e => Except.error e
      | Except.ok image_hash =>
        match scanDir fs user_image_path directory_path user_image_hash
            threshold rest with
        | Except.error e => Except.error e
        | Except.ok tail =>
          Except.ok
            (if (hammingDistance user_image_hash image_hash : Int) < threshold
             then image_filename :: tail
             else tail)

/-- Embeds find_similar_images (src/image_similarity.py lines 30-55):
hash the reference image, then scan the directory listing.  The
listing os.listdir returns is the explicit argument listdir. -/
def find_similar_images (fs : String → Option Fingerprint)
    (listdir : List String) (user_image_path directory_path : String)
    (threshold : Int) : Except Nat (List String) :=
  match calculate_image_hash fs user_image_path with
  | Except.error e => Except.error e
  | Except.ok user_image_hash =>
    scanDir fs user_image_path directory_path user_image_hash threshold listdir

/-- The membership test a directory entry passes in the loop of
find_similar_images: it is not the reference basename, its hash
computation succeeds, and its distance to the reference hash is
strictly below the threshold. -/
def scanPred (fs : String → Option Fingerprint) (ref dir : String)
    (rh : Fingerprint) (t : Int) (f : String) : Bool :=
  !(f == basename ref) &&
    (match fs (pathJoin dir f) with
     | some h => decide ((hammingDistance rh h : Int) < t)
     | none => false)

/-- Outcome printed for one file by delete_images: the confirmation
after os.remove succeeds, or the error message when it raises
OSError. -/
inductive DeleteEvent where
  | deleted (filename : String)
  | failed (filename : String)
  deriving DecidableEq, Repr

/-- The filename a deletion outcome is reported for. -/
def DeleteEvent.filename : DeleteEvent → String
  | DeleteEvent.deleted f => f
  | DeleteEvent.failed f => f

/-- Embeds delete_images (src/image_similarity.py lines 58-71): for
each filename in order, os.remove the file joined to the directory
path; a success removes the path from the disk and prints a
confirmation, an OSError (missing file, or any other failure, modelled
by the oracle osError) prints an error for that file; either way the
loop continues with the remaining files.  Returns the final disk state
and the ordered list of per-file outcomes. -/
def delete_images (osError : String → Bool) (directory_path : String) :
    List String → (String → Bool) → (String → Bool) × List DeleteEvent
  | [], disk => (disk, [])
  | filename :: rest, disk =>
    if disk (pathJoin directory_path filename) &&
        !osError (pathJoin directory_path filename) then
      ((delete_images osError directory_path rest
          (fun q => if q = pathJoin directory_path filename then false
                    else disk q)).1,
       DeleteEvent.deleted filename ::
         (delete_images osError directory_path rest
           (fun q => if q = pathJoin directory_path filename then false
                     else disk q)).2)
    else
      ((delete_images osError directory_path rest disk).1,
       DeleteEvent.failed filename ::
         (delete_images osError directory_path rest disk).2)

/-- The n consecutive integers counting up from s. -/
def intRangeAux : Nat → Int → List Int
  | 0, _ => []
  | n + 1, s => s :: intRangeAux n (s + 1)

/-- Python range start stop over integers, as the ascending list
start, start+1, ..., stop-1 (empty when stop ≤ start). -/
def intRange (start stop : Int) : List Int :=
  intRangeAux (stop - start).toNat start

/-- Embeds one iteration of the selection loop in main
(src/image_similarity.py lines 113-118): a token containing a dash is
split into exactly two integers start and end and expands to
range start (end + 1); any other token is a single integer.  none
models the uncaught ValueError on a malformed token. -/
def parsePart (part : String) : Option (List Int) :=
  if strContains part '-' then
    match strSplit '-' part with
    | [s, e] =>
      match strToInt s, strToInt e with
      | some start, some stop => some (intRange start (stop + 1))
      | _, _ => none
    | _ => none
  else
    (strToInt part).map (fun i => [i])

/-- Embeds the selection loop of main (src/image_similarity.py lines
112-118): split the input on commas and concatenate the expansion of
every token, in order.  none models the uncaught ValueError on any
malformed token. -/
def parseIndices (s : String) : Option (List Int) :=
  (strSplit ',' s).foldr
    (fun part acc =>
      match parsePart part, acc with
      | some l, some r => some (l ++ r)
      | _, _ => none)
    (some [])

/-- Embeds the comprehension of main (src/image_similarity.py lines
120-121): keep the 1-based indices i with 0 < i ≤ len similar_images,
in order and with multiplicity, and map each to similar_images[i-1]. -/
def selectFilenames (indices_to_delete : List Int)
    (similar_images : List String) : List String :=
  indices_to_delete.filterMap
    (fun i =>
      if 0 < i ∧ i ≤ (similar_images.length : Int) then
        some (similar_images.getD (i - 1).toNat "")
      else none)

/-- Two equal fingerprints are at Hamming distance zero. -/
theorem hammingDistance_self (h : Fingerprint) : hammingDistance h h = 0 := by
  induction h with
  | nil => rfl
  | cons b rest ih => simpa [hammingDistance, List.countP_cons] using ih

/-- A successful scan returns exactly the sublist of the directory
listing that passes the membership test, in listing order. -/
theorem scanDir_ok_eq_filter (fs : String → Option Fingerprint)
    (ref dir : String) (rh : Fingerprint) (t : Int) :
    ∀ (l : List String) (res : List String),
      scanDir fs ref dir rh t l = Except.ok res →
      res = List.filter (scanPred fs ref dir rh t) l := by
  intro l
  induction l with
  | nil =>
    intro res h
    simp only [scanDir, Except.ok.injEq] at h
    simpa using h.symm
  | cons g rest ih =>
    intro res h
    simp only [scanDir] at h
    by_cases hg : g = basename ref
    · rw [if_pos hg] at h
      have hres := ih res h
      have hpred : scanPred fs ref dir rh t g = false := by
        simp [scanPred, hg]
      simp [List.filter_cons, hpred, hres]
    · rw [if_neg hg] at h
      cases hfs : fs (pathJoin dir g) with
      | none => simp [calculate_image_hash, hfs] at h
      | some hg2 =>
        simp only [calculate_image_hash, hfs] at h
        cases hrec : scanDir fs ref dir rh t rest with
        | error e => rw [hrec] at h; simp at h
        | ok tail =>
          rw [hrec] at h
          simp only [Except.ok.injEq] at h
          have htail := ih tail hrec
          have hpred : scanPred fs ref dir rh t g =
              decide ((hammingDistance rh hg2 : Int) < t) := by
            simp [scanPred, hg, hfs]
          subst h
          by_cases hd : (hammingDistance rh hg2 : Int) < t
          · simp [List.filter_cons, hpred, hd, htail]
          · simp [List.filter_cons, hpred, hd, htail]

/-- When every entry that will be hashed has a hash, the scan succeeds
and returns the filtered listing. -/
theorem scanDir_ok_of_total (fs : String → Option Fingerprint)
    (ref dir : String) (rh : Fingerprint) (t : Int) :
    ∀ (l : List String),
      (∀ f ∈ l, f ≠ basename ref → fs (pathJoin dir f) ≠ none) →
      scanDir fs ref dir rh t l =
        Except.ok (List.filter (scanPred fs ref dir rh t) l) := by
  intro l
  induction l with
  | nil => intro _; simp [scanDir]
  | cons g rest ih =>
    intro hall
    have hrest : ∀ f ∈ rest, f ≠ basename ref → fs (pathJoin dir f) ≠ none :=
      fun f hf => hall f (List.mem_cons_of_mem g hf)
    simp only [scanDir]
    by_cases hg : g = basename ref
    · rw [if_pos hg, ih hrest]
      have hpred : scanPred fs ref dir rh t g = false := by
        simp [scanPred, hg]
      simp [List.filter_cons, hpred]
    · rw [if_neg hg]
      cases hfs : fs (pathJoin dir g) with
      | none => exact absurd hfs (hall g (List.mem_cons_self g rest) hg)
      | some hg2 =>
        have hpred : scanPred fs ref dir rh t g =
            decide ((hammingDistance rh hg2 : Int) < t) := by
          simp [scanPred, hg, hfs]
        simp only [calculate_image_hash, hfs, ih hrest, List.filter_cons, hpred]
        by_cases hd : (hammingDistance rh hg2 : Int) < t
        · simp [hd]
        · simp [hd]

/-- The scan only ever fails with exit status one. -/
theorem scanDir_error_eq_one (fs : String → Option Fingerprint)
    (ref dir : String) (rh : Fingerprint) (t : Int) :
    ∀ (l : List String) (e : Nat),
      scanDir fs ref dir rh t l = Except.error e → e = 1 := by
  intro l
  induction l with
  | nil => intro e h; simp [scanDir] at h
  | cons g rest ih =>
    intro e h
    simp only [scanDir] at h
    by_cases hg : g = basename ref
    · rw [if_pos hg] at h; exact ih e h
    · rw [if_neg hg] at h
      cases hfs : fs (pathJoin dir g) with
      | none =>
        simp only [calculate_image_hash, hfs, Except.error.injEq] at h
        exact h.symm
      | some hg2 =>
        simp only [calculate_image_hash, hfs] at h
        cases hrec : scanDir fs ref dir rh t rest with
        | error e2 =>
          rw [hrec] at h
          simp only [Except.error.injEq] at h
          exact h ▸ ih e2 hrec
        | ok tail => rw [hrec] at h; simp at h

/-- A single entry, other than the reference basename, whose hash
computation fails makes the whole scan exit with status one. -/
theorem scanDir_error_of_missing (fs : String → Option Fingerprint)
    (ref dir : String) (rh : Fingerprint) (t : Int) :
    ∀ (l : List String) (f : String), f ∈ l → f ≠ basename ref →
      fs (pathJoin dir f) = none →
      scanDir fs ref dir rh t l = Except.error 1 := by
  intro l
  induction l with
  | nil => intro f hf _ _; exact absurd hf (List.not_mem_nil f)
  | cons g rest ih =>
    intro f hf hne hnone
    simp only [scanDir]
    by_cases hg : g = basename ref
    · rw [if_pos hg]
      have hfr : f ∈ rest := by
        cases List.mem_cons.mp hf with
        | inl h => exact absurd (h.trans hg) hne
        | inr h => exact h
      exact ih f hfr hne hnone
    · rw [if_neg hg]
      cases hfs : fs (pathJoin dir g) with
      | none => simp [calculate_image_hash, hfs]
      | some hg2 =>
        have hfr : f ∈ rest := by
          cases List.mem_cons.mp hf with
          | inl h => subst h; rw [hnone] at hfs; simp at hfs
          | inr h => exact h
        simp [calculate_image_hash, hfs, ih f hfr hne hnone]

/-- Membership in a block of consecutive integers. -/
theorem mem_intRangeAux (n : Nat) :
    ∀ (s i : Int), i ∈ intRangeAux n s ↔ s ≤ i ∧ i < s + n := by
  induction n with
  | zero => intro s i; simp [intRangeAux]
  | succ m ih =>
    intro s i
    simp only [intRangeAux, List.mem_cons, ih (s + 1)]
    omega

/-- Membership in an integer range: intRange a b holds the integers
from a inclusive to b exclusive. -/
theorem mem_intRange (a b i : Int) : i ∈ intRange a b ↔ a ≤ i ∧ i < b := by
  rw [intRange, mem_intRangeAux]
  omega

/-- A filterMap whose function is a guarded lookup is the same as
filtering on the guard and then mapping the lookup. -/
theorem filterMap_guard_eq {α β : Type} (p : α → Prop) [DecidablePred p]
    (g : α → β) (l : List α) :
    l.filterMap (fun a => if p a then some (g a) else none) =
      (l.filter (fun a => decide (p a))).map g := by
  induction l with
  | nil => rfl
  | cons a rest ih =>
    by_cases h : p a
    · simp [List.filterMap_cons, List.filter_cons, h, ih]
    · simp [List.filterMap_cons, List.filter_cons, h, ih]

/-- The selection comprehension equals: filter the indices down to the
in-range ones, then look each of them up, keeping order and
multiplicity. -/
theorem selectFilenames_eq (idxs : List Int) (imgs : List String) :
    selectFilenames idxs imgs =
      (idxs.filter
          (fun i => decide (0 < i ∧ i ≤ (imgs.length : Int)))).map
        (fun i => imgs.getD (i - 1).toNat "") := by
  exact filterMap_guard_eq (fun i => 0 < i ∧ i ≤ (imgs.length : Int))
    (fun i => imgs.getD (i - 1).toNat "") idxs

/-- Membership in the selection: exactly the entries of the result
list located at an in-range selected index. -/
theorem mem_selectFilenames (idxs : List Int) (imgs : List String)
    (f : String) :
    f ∈ selectFilenames idxs imgs ↔
      ∃ i, i ∈ idxs ∧ 0 < i ∧ i ≤ (imgs.length : Int) ∧
        f = imgs.getD (i - 1).toNat "" := by
  simp only [selectFilenames, List.mem_filterMap]
  constructor
  · rintro ⟨i, hi, hg⟩
    by_cases h : 0 < i ∧ i ≤ (imgs.length : Int)
    · rw [if_pos h] at hg
      exact ⟨i, hi, h.1, h.2, (Option.some.inj hg).symm⟩
    · rw [if_neg h] at hg
      cases hg
  · rintro ⟨i, hi, h1, h2, rfl⟩
    exact ⟨i, hi, by rw [if_pos ⟨h1, h2⟩]⟩

/-- Every filename in the list gets exactly one outcome report, in
order, about that very filename. -/
theorem delete_images_map_filename (osE : String → Bool) (d : String) :
    ∀ (l : List String) (disk : String → Bool),
      ((delete_images osE d l disk).2).map DeleteEvent.filename = l := by
  intro l
  induction l with
  | nil => intro disk; rfl
  | cons f rest ih =>
    intro disk
    simp only [delete_images]
    by_cases h : (disk (pathJoin d f) && !osE (pathJoin d f)) = true
    · rw [if_pos h]
      simp [DeleteEvent.filename, ih]
    · rw [if_neg h]
      simp [DeleteEvent.filename, ih]

/-- Deleting a concatenation processes the first list completely and
then the second on the resulting disk: no outcome, success or failure,
in the first part stops the second part from being attempted. -/
theorem delete_images_append (osE : String → Bool) (d : String) :
    ∀ (l₁ l₂ : List String) (disk : String → Bool),
      delete_images osE d (l₁ ++ l₂) disk =
        ((delete_images osE d l₂ (delete_images osE d l₁ disk).1).1,
         (delete_images osE d l₁ disk).2 ++
           (delete_images osE d l₂ (delete_images osE d l₁ disk).1).2) := by
  intro l₁
  induction l₁ with
  | nil => intro l₂ disk; simp [delete_images]
  | cons f rest ih =>
    intro l₂ disk
    simp only [List.cons_append, delete_images]
    by_cases h : (disk (pathJoin d f) && !osE (pathJoin d f)) = true
    · rw [if_pos h, if_pos h]
      simp [ih]
    · rw [if_neg h, if_neg h]
      simp [ih]

/-- A path that is not the join of the directory with one of the
listed filenames keeps its disk state. -/
theorem delete_images_outside (osE : String → Bool) (d : String) :
    ∀ (l : List String) (disk : String → Bool) (q : String),
      q ∉ l.map (pathJoin d) →
      (delete_images osE d l disk).1 q = disk q := by
  intro l
  induction l with
  | nil => intro disk q _; rfl
  | cons f rest ih =>
    intro disk q hq
    simp only [List.map_cons, List.mem_cons, not_or] at hq
    obtain ⟨hq1, hq2⟩ := hq
    simp only [delete_images]
    by_cases h : (disk (pathJoin d f) && !osE (pathJoin d f)) = true
    · rw [if_pos h, ih _ q hq2]
      simp [hq1]
    · rw [if_neg h]
      exact ih disk q hq2

/-- Deletion never makes a path exist: any path present after the run
was present before. -/
theorem delete_images_no_create (osE : String → Bool) (d : String) :
    ∀ (l : List String) (disk : String → Bool) (q : String),
      (delete_images osE d l disk).1 q = true → disk q = true := by
  intro l
  induction l with
  | nil => intro disk q h; exact h
  | cons f rest ih =>
    intro disk q h
    simp only [delete_images] at h
    by_cases hc : (disk (pathJoin d f) && !osE (pathJoin d f)) = true
    · rw [if_pos hc] at h
      have h2 := ih _ q h
      by_cases hq : q = pathJoin d f
      · simp [hq] at h2
      · simpa [hq] using h2
    · rw [if_neg hc] at h
      exact ih disk q h

/-- Witness filesystem: the reference path r has fingerprint with one
set bit, every other path has the complementary fingerprint. -/
def fsC1 : String → Option Fingerprint :=
  fun p => if p = "r" then some [true] else some [false]

/-- Witness filesystem: every path has the same fingerprint. -/
def fsSame : String → Option Fingerprint :=
  fun _ => some [true]

/-- C1: for every reference image, directory and integer threshold, a
scanned directory entry (one other than the reference basename, with a
known fingerprint) is in the similarity-scan result iff the Hamming
distance between its fingerprint and the reference fingerprint is
strictly less than the threshold; in particular distance exactly equal
to the threshold is excluded and distance threshold minus one is
included. -/
theorem scan_inclusion_iff_strict_threshold
    (fs : String → Option Fingerprint) (listdir : List String)
    (ref dir : String) (t : Int) (rh : Fingerprint) (res : List String)
    (href : fs ref = some rh)
    (hres : find_similar_images fs listdir ref dir t = Except.ok res)
    (f : String) (hf : f ∈ listdir) (hne : f ≠ basename ref)
    (h : Fingerprint) (hh : fs (pathJoin dir f) = some h) :
    (f ∈ res ↔ (hammingDistance rh h : Int) < t) ∧
    ((hammingDistance rh h : Int) = t → f ∉ res) ∧
    ((hammingDistance rh h : Int) = t - 1 → f ∈ res) := by
  have hscan : scanDir fs ref dir rh t listdir = Except.ok res := by
    simpa [find_similar_images, calculate_image_hash, href] using hres
  have hfil := scanDir_ok_eq_filter fs ref dir rh t listdir res hscan
  subst hfil
  have hmem : f ∈ List.filter (scanPred fs ref dir rh t) listdir ↔
      (hammingDistance rh h : Int) < t := by
    rw [List.mem_filter]
    constructor
    · rintro ⟨-, hp⟩
      simp only [scanPred, hh, Bool.and_eq_true, decide_eq_true_eq] at hp
      exact hp.2
    · intro hd
      refine ⟨hf, ?_⟩
      simp only [scanPred, hh, Bool.and_eq_true, decide_eq_true_eq]
      exact ⟨by simp [hne], hd⟩
  refine ⟨hmem, fun he => ?_, fun he => ?_⟩
  · rw [hmem]
    omega
  · rw [hmem]
    omega

/-- Witness for C1 at a concrete directory: one entry at distance one
against threshold two. -/
theorem scan_inclusion_iff_strict_threshold_witness :
    ("a" ∈ (["a"] : List String) ↔
      ((hammingDistance [true] [false] : Nat) : Int) < 2) ∧
    (((hammingDistance [true] [false] : Nat) : Int) = 2 →
      "a" ∉ (["a"] : List String)) ∧
    (((hammingDistance [true] [false] : Nat) : Int) = 2 - 1 →
      "a" ∈ (["a"] : List String)) :=
  scan_inclusion_iff_strict_threshold fsC1 ["a"] "r" "d" 2 [true] ["a"]
    rfl rfl "a" (by decide) (by decide) [false] rfl

/-- C2: a failed image open, on the reference image or on any
non-skipped file met during the directory scan, makes the whole
program terminate with exit code one; in particular no partial result
list is ever returned. -/
theorem fatal_hash_failure_exits_one
    (fs : String → Option Fingerprint) (listdir : List String)
    (ref dir : String) (t : Int)
    (hfail : fs ref = none ∨
      ∃ f, f ∈ listdir ∧ f ≠ basename ref ∧ fs (pathJoin dir f) = none) :
    find_similar_images fs listdir ref dir t = Except.error 1 ∧
    ∀ res, find_similar_images fs listdir ref dir t ≠ Except.ok res := by
  have hmain : find_similar_images fs listdir ref dir t = Except.error 1 := by
    cases hfail with
    | inl hr => simp [find_similar_images, calculate_image_hash, hr]
    | inr hr =>
      obtain ⟨f, hf, hne, hnone⟩ := hr
      cases href : fs ref with
      | none => simp [find_similar_images, calculate_image_hash, href]
      | some rh =>
        simp only [find_similar_images, calculate_image_hash, href]
        exact scanDir_error_of_missing fs ref dir rh t listdir f hf hne hnone
  exact ⟨hmain, fun res hok => by rw [hmain] at hok; exact Except.noConfusion hok⟩

/-- Witness for C2: a reference image that cannot be opened. -/
theorem fatal_hash_failure_exits_one_witness :
    find_similar_images (fun _ => none) [] "r" "d" 10 = Except.error 1 :=
  (fatal_hash_failure_exits_one (fun _ => none) [] "r" "d" 10 (Or.inl rfl)).1

/-- C4: the entry named exactly like the reference basename is never
in the result, whatever its content, while an entry with the very same
fingerprint as the reference but a different name is compared and
reported (for a positive threshold). -/
theorem self_name_excluded_copy_compared
    (fs : String → Option Fingerprint) (listdir : List String)
    (ref dir : String) (t : Int) (rh : Fingerprint) (res : List String)
    (href : fs ref = some rh)
    (hres : find_similar_images fs listdir ref dir t = Except.ok res) :
    basename ref ∉ res ∧
    (∀ f, f ∈ listdir → f ≠ basename ref →
      fs (pathJoin dir f) = some rh → 0 < t → f ∈ res) := by
  have hscan : scanDir fs ref dir rh t listdir = Except.ok res := by
    simpa [find_similar_images, calculate_image_hash, href] using hres
  have hfil := scanDir_ok_eq_filter fs ref dir rh t listdir res hscan
  subst hfil
  constructor
  · intro hmem
    have hp := (List.mem_filter.mp hmem).2
    simp [scanPred] at hp
  · intro f hf hne hcopy ht
    rw [List.mem_filter]
    refine ⟨hf, ?_⟩
    simp only [scanPred, hcopy, Bool.and_eq_true, decide_eq_true_eq]
    refine ⟨by simp [hne], ?_⟩
    rw [hammingDistance_self]
    simpa using ht

/-- Witness for C4: a same-fingerprint copy under a different name is
reported. -/
theorem self_name_excluded_copy_compared_witness :
    "c" ∈ (["c"] : List String) :=
  (self_name_excluded_copy_compared fsSame ["c"] "r" "d" 1 [true] ["c"]
    rfl rfl).2 "c" (by decide) (by decide) rfl (by decide)

/-- C5: a threshold at most zero makes any successful scan return the
empty result list, identical fingerprints included, because inclusion
needs distance strictly below the threshold and distances are
nonnegative. -/
theorem nonpositive_threshold_empty_result
    (fs : String → Option Fingerprint) (listdir : List String)
    (ref dir : String) (t : Int) (res : List String)
    (hres : find_similar_images fs listdir ref dir t = Except.ok res)
    (ht : t ≤ 0) : res = [] := by
  cases href : fs ref with
  | none =>
    rw [find_similar_images] at hres
    simp [calculate_image_hash, href] at hres
  | some rh =>
    have hscan : scanDir fs ref dir rh t listdir = Except.ok res := by
      simpa [find_similar_images, calculate_image_hash, href] using hres
    rw [scanDir_ok_eq_filter fs ref dir rh t listdir res hscan]
    rw [List.filter_eq_nil_iff]
    intro f hf
    simp only [scanPred, Bool.and_eq_true, not_and]
    intro _
    cases hfs : fs (pathJoin dir f) with
    | none => simp
    | some hv =>
      simp only [decide_eq_true_eq]
      omega

/-- Witness for C5: identical fingerprints, threshold zero, empty
result. -/
theorem nonpositive_threshold_empty_result_witness : ([] : List String) = [] :=
  nonpositive_threshold_empty_result fsSame ["a"] "r" "d" 0 [] rfl (by decide)

/-- C7: with an unchanged filesystem the scan is a pure function, so
two runs coincide, and a successful scan result is exactly the
directory listing filtered in enumeration order (reference basename
excluded, strict-threshold test applied), with no reordering or
ranking by distance. -/
theorem scan_deterministic_enumeration_order
    (fs : String → Option Fingerprint) (listdir : List String)
    (ref dir : String) (t : Int) (rh : Fingerprint)
    (href : fs ref = some rh)
    (hall : ∀ f ∈ listdir, f ≠ basename ref → fs (pathJoin dir f) ≠ none) :
    find_similar_images fs listdir ref dir t =
      Except.ok (List.filter (scanPred fs ref dir rh t) listdir) ∧
    find_similar_images fs listdir ref dir t =
      find_similar_images fs listdir ref dir t := by
  refine ⟨?_, rfl⟩
  simp only [find_similar_images, calculate_image_hash, href]
  exact scanDir_ok_of_total fs ref dir rh t listdir hall

/-- Witness for C7 at a concrete directory listing. -/
theorem scan_deterministic_enumeration_order_witness :
    find_similar_images fsSame ["a"] "r" "d" 10 =
      Except.ok (List.filter (scanPred fsSame "r" "d" [true] 10) ["a"]) ∧
    find_similar_images fsSame ["a"] "r" "d" 10 =
      find_similar_images fsSame ["a"] "r" "d" 10 :=
  scan_deterministic_enumeration_order fsSame ["a"] "r" "d" 10 [true] rfl
    (fun f hf hne => by simp [fsSame])

/-- C3: every file in the deletion list gets exactly one outcome
report, in order, about that very file; the outcomes of a prefix,
failures included, never stop the remaining files from being
attempted, and nothing is rolled back (the suffix simply runs on the
disk the prefix left behind); on a concrete three-file list whose
second file is missing, the first and third are deleted and only the
second reports a failure. -/
theorem delete_failures_independent :
    (∀ (osE : String → Bool) (d : String) (l : List String)
        (disk : String → Bool),
      ((delete_images osE d l disk).2).map DeleteEvent.filename = l) ∧
    (∀ (osE : String → Bool) (d : String) (l₁ l₂ : List String)
        (disk : String → Bool),
      delete_images osE d (l₁ ++ l₂) disk =
        ((delete_images osE d l₂ (delete_images osE d l₁ disk).1).1,
         (delete_images osE d l₁ disk).2 ++
           (delete_images osE d l₂ (delete_images osE d l₁ disk).1).2)) ∧
    (delete_images (fun _ => false) "d" ["a", "b", "c"]
        (fun q => !(q == pathJoin "d" "b"))).2 =
      [DeleteEvent.deleted "a", DeleteEvent.failed "b",
       DeleteEvent.deleted "c"] := by
  refine ⟨?_, ?_, by decide⟩
  · intro osE d l disk
    exact delete_images_map_filename osE d l disk
  · intro osE d l₁ l₂ disk
    exact delete_images_append osE d l₁ l₂ disk

/-- C6: a well-formed selection expression chooses exactly the result
entries at the parsed one-based indices that lie within bounds; ranges
expand inclusively, out-of-range indices are silently dropped, and on
the spec examples: 1,3-5 against five results selects positions one,
three, four and five, while 9 against the same results selects
nothing. -/
theorem selection_parsing_exact :
    (∀ (a b i : Int), i ∈ intRange a (b + 1) ↔ a ≤ i ∧ i ≤ b) ∧
    (∀ (idxs : List Int) (imgs : List String) (f : String),
      f ∈ selectFilenames idxs imgs ↔
        ∃ i, i ∈ idxs ∧ 0 < i ∧ i ≤ (imgs.length : Int) ∧
          f = imgs.getD (i - 1).toNat "") ∧
    parseIndices "1,3-5" = some [1, 3, 4, 5] ∧
    selectFilenames [1, 3, 4, 5] ["a", "b", "c", "d", "e"] =
      ["a", "c", "d", "e"] ∧
    parseIndices "9" = some [9] ∧
    selectFilenames [9] ["a", "b", "c", "d", "e"] = [] := by
  refine ⟨?_, mem_selectFilenames, rfl, rfl, rfl, rfl⟩
  intro a b i
  rw [mem_intRange]
  omega

/-- C8: a reversed range token expands through range start (end + 1)
to the empty list, so it contributes no indices, selects nothing and
raises no error. -/
theorem reversed_range_selects_nothing :
    (∀ (a b : Int), b < a → intRange a (b + 1) = []) ∧
    parseIndices "6-4" = some [] ∧
    parseIndices "1,6-4,2" = some [1, 2] ∧
    (∀ (imgs : List String), selectFilenames [] imgs = []) := by
  refine ⟨?_, rfl, rfl, fun imgs => rfl⟩
  intro a b hba
  rw [intRange]
  have hz : (b + 1 - a).toNat = 0 := by omega
  rw [hz]
  rfl

/-- Witness for C8 on the spec example token 6-4. -/
theorem reversed_range_selects_nothing_witness :
    intRange 6 (4 + 1) = [] :=
  reversed_range_selects_nothing.1 6 4 (by decide)

/-- C9: the selection keeps order and multiplicity (it is a filter of
the index list followed by a lookup, with no deduplication), a
repeated in-range index yields its filename twice, and the deletion
executor then attempts that file once per occurrence: the first
attempt succeeds, the second reports a failure, and the remaining
files are still processed. -/
theorem selection_keeps_duplicates :
    (∀ (idxs : List Int) (imgs : List String),
      selectFilenames idxs imgs =
        (idxs.filter
            (fun i => decide (0 < i ∧ i ≤ (imgs.length : Int)))).map
          (fun i => imgs.getD (i - 1).toNat "")) ∧
    (∀ (i : Int) (imgs : List String),
      0 < i → i ≤ (imgs.length : Int) →
      selectFilenames [i, i] imgs =
        [imgs.getD (i - 1).toNat "", imgs.getD (i - 1).toNat ""]) ∧
    (∀ (osE : String → Bool) (d f : String) (rest : List String)
        (disk : String → Bool),
      disk (pathJoin d f) = true → osE (pathJoin d f) = false →
      (delete_images osE d (f :: f :: rest) disk).2 =
        DeleteEvent.deleted f :: DeleteEvent.failed f ::
          (delete_images osE d rest
            (fun q => if q = pathJoin d f then false else disk q)).2) := by
  refine ⟨selectFilenames_eq, ?_, ?_⟩
  · intro i imgs h1 h2
    simp [selectFilenames, List.filterMap_cons, if_pos (And.intro h1 h2)]
  · intro osE d f rest disk hdisk hos
    simp [delete_images, hdisk, hos]

/-- Witness for C9: index one selected twice from a one-element result
list. -/
theorem selection_keeps_duplicates_witness :
    selectFilenames [1, 1] ["a"] = ["a", "a"] :=
  selection_keeps_duplicates.2.1 1 ["a"] (by decide) (by decide)

/-- C10: the deletion executor touches at most the paths obtained by
joining the directory with a listed filename: any other path keeps its
disk state, and no path ever comes into existence through a run. -/
theorem delete_frame_only_listed (osE : String → Bool) (d : String)
    (l : List String) (disk : String → Bool) :
    (∀ q, q ∉ l.map (pathJoin d) →
      (delete_images osE d l disk).1 q = disk q) ∧
    (∀ q, (delete_images osE d l disk).1 q = true → disk q = true) :=
  ⟨fun q hq => delete_images_outside osE d l disk q hq,
   fun q hq => delete_images_no_create osE d l disk q hq⟩

/-- Witness for C10: a path not named in the list is untouched. -/
theorem delete_frame_only_listed_witness :
    (delete_images (fun _ => false) "d" ["a"] (fun _ => true)).1 "x" = true :=
  (delete_frame_only_listed (fun _ => false) "d" ["a"] (fun _ => true)).1
    "x" (by decide)
